import Mathlib

/-!
A verification development for the value codec of the `pq` PostgreSQL
driver (`encode.go`).  Go strings and byte slices are modelled as
`List (Fin 256)` (Go strings are byte sequences); machine integers are
modelled as `Int` (`strconv` range checks are made explicit); fallible
code returns `Except Fault _`, distinguishing the driver's `errorf`
reporting mechanism from Go runtime panics (out-of-range index or
slice accesses).
-/

set_option maxHeartbeats 1000000
set_option maxRecDepth 8000

/-- A byte, as used for both Go strings and Go byte slices. -/
abbrev GoByte := Fin 256

/-- Byte sequence (Go `string` / `[]byte`). -/
abbrev GoBytes := List GoByte

/-- Build a byte from a natural number (mod 256). -/
def bOf (n : Nat) : GoByte := ⟨n % 256, Nat.mod_lt _ (by decide)⟩

/-- Byte of an ASCII character literal. -/
def byte (c : Char) : GoByte := bOf c.toNat

/-- Bytes of an ASCII Lean string literal (UTF-8 agrees with code points
on ASCII, the only characters we ever write in literals). -/
def gs (s : String) : GoBytes := s.data.map byte

/-- Render bytes back into a Lean string, for fault messages
(byte-per-character, the identity on ASCII). -/
def bytesToStr (s : GoBytes) : String := String.mk (s.map (fun b => Char.ofNat b.val))

/-- Failure modes of the Go code: `errorf` is the driver's error
reporting mechanism (the "decode error" of the specification);
`panicked` is a Go runtime panic such as an out-of-range slice or
index access, which bypasses that mechanism. -/
inductive Fault where
  | errorf (msg : String)
  | panicked (msg : String)
deriving DecidableEq, Repr

/-- `true` exactly on a runtime panic. -/
def isPanic {α : Type} : Except Fault α → Bool
  | .error (.panicked _) => true
  | _ => false

/-- `true` exactly on success. -/
def isOk {α : Type} : Except Fault α → Bool
  | .ok _ => true
  | _ => false

/-- Go slice expression `s[lo:hi]` (panics unless `0 ≤ lo ≤ hi ≤ len s`). -/
def goSlice (s : GoBytes) (lo hi : Int) : Except Fault GoBytes :=
  if 0 ≤ lo ∧ lo ≤ hi ∧ hi ≤ (s.length : Int) then
    .ok ((s.take hi.toNat).drop lo.toNat)
  else
    .error (.panicked "slice bounds out of range")

/-- Go index expression `s[i]` (panics unless `0 ≤ i < len s`). -/
def goIdx (s : GoBytes) (i : Int) : Except Fault GoByte :=
  if h : 0 ≤ i ∧ i < (s.length : Int) then
    .ok (s.get ⟨i.toNat, by omega⟩)
  else
    .error (.panicked "index out of range")

/-- Go `strings.IndexRune` for an ASCII rune: byte index of the first
occurrence, `-1` if absent. -/
def goIndexRune (s : GoBytes) (c : GoByte) : Int :=
  match s.findIdx? (fun x => x == c) with
  | some i => (i : Int)
  | none => -1

/-- Go `strings.IndexAny` for a set of ASCII runes: byte index of the
first byte belonging to `set`, `-1` if absent. -/
def goIndexAny (s : GoBytes) (set : GoBytes) : Int :=
  match s.findIdx? (fun x => set.contains x) with
  | some i => (i : Int)
  | none => -1

/-- ASCII decimal digit test. -/
def isDigit (b : GoByte) : Bool := 48 ≤ b.val ∧ b.val ≤ 57

/-- Accumulate a digit string into a number; `none` if empty or if any
byte is not a decimal digit. -/
def digitsToNat? (s : GoBytes) : Option Nat :=
  match s with
  | [] => none
  | _ => go s 0
where
  go : GoBytes → Nat → Option Nat
    | [], acc => some acc
    | b :: rest, acc => if isDigit b then go rest (acc * 10 + (b.val - 48)) else none

/-- Go `strconv.Atoi` (= `ParseInt(s, 10, 64)`): optional sign, one or
more decimal digits, signed 64-bit range check. -/
def goAtoi (s : GoBytes) : Option Int :=
  match s with
  | [] => none
  | c :: rest =>
    let (neg, digits) :=
      if c = byte '-' then (true, rest)
      else if c = byte '+' then (false, rest)
      else (false, s)
    match digitsToNat? digits with
    | none => none
    | some n =>
      let v : Int := if neg then -(n : Int) else (n : Int)
      if v < -(2 ^ 63) ∨ v > 2 ^ 63 - 1 then none else some v

/-- `mustAtoi`: `strconv.Atoi`, turning a parse failure into
`errorf("expected number; got '%v'", str)`. -/
def mustAtoi (s : GoBytes) : Except Fault Int :=
  match goAtoi s with
  | some n => .ok n
  | none => .error (.errorf ("expected number; got '" ++ bytesToStr s ++ "'"))

/-- `expect(str, char, pos)`: compare the one-byte slice `str[pos:pos+1]`
against `char`, reporting position and offending byte on mismatch. -/
def expect (str : GoBytes) (char : GoByte) (pos : Int) : Except Fault Unit := do
  let c ← goSlice str pos (pos + 1)
  if c ≠ [char] then
    .error (.errorf ("expected '" ++ bytesToStr [char] ++ "' at position " ++
      toString pos ++ "; got '" ++ bytesToStr c ++ "'"))
  else
    .ok ()

/-!  Model of the Go `time` package as used by `encode.go`: `time.Date`
with its field normalization and calendar rollover, and the component
accessors (`Year`, `Month`, ...).  The algorithm follows Go's
`time.Date` / `absDate` / `absClock`: an absolute second count from the
absolute epoch (January 1 of year `absoluteZeroYear`), decomposed
through 400/100/4-year eras. -/

/-- Go `time.absoluteZeroYear`. -/
def absoluteZeroYear : Int := -292277022399

/-- Go `time.norm(hi, lo, base)`: bring `lo` into `[0, base)` carrying
into `hi` (literal translation; `base > 0` at every call site). -/
def goNorm (hi lo base : Int) : Int × Int :=
  let p := if lo < 0 then
      let n := (-lo - 1).tdiv base + 1
      (hi - n, lo + n * base)
    else (hi, lo)
  if p.2 ≥ base then
    let n := p.2.tdiv base
    (p.1 + n, p.2 - n * base)
  else p

/-- Go `time.isLeap`. -/
def isLeap (year : Int) : Bool :=
  year.emod 4 = 0 ∧ (year.emod 100 ≠ 0 ∨ year.emod 400 = 0)

/-- Go `time.daysBefore[m]`: days in a non-leap year before month
`m+1` (index 0..12). -/
def daysBefore (m : Int) : Int :=
  [(0 : Int), 31, 59, 90, 120, 151, 181, 212, 243, 273, 304, 334, 365].getD m.toNat 365

/-- Go `time.daysSinceEpoch(year)`: days from the absolute epoch to the
start of `year` (the era subtraction makes every division nonnegative). -/
def daysSinceEpoch (year : Int) : Int :=
  let y := year - absoluteZeroYear
  let n400 := y.tdiv 400
  let y := y - 400 * n400
  let n100 := y.tdiv 100
  let y := y - 100 * n100
  let n4 := y.tdiv 4
  let y := y - 4 * n4
  146097 * n400 + 36524 * n100 + 1461 * n4 + 365 * y

/-- A Go `time.Time` restricted to what `encode.go` observes: absolute
seconds (UTC), nanoseconds within the second, and the zone offset in
seconds.  A named location is modelled only through its offset (see
`Location`). -/
structure GoTime where
  absSec : Int
  nsec : Int
  offset : Int
deriving DecidableEq, Repr

/-- A timezone location, modelled as the injected capability of the
specification's design notes: a pure map from an absolute instant to
the zone offset in effect there. -/
structure Location where
  offAt : Int → Int

/-- Go `time.Date(year, month, day, hour, min, sec, nsec, FixedZone("", offset))`:
normalize the fields, then convert to absolute seconds. -/
def timeDate (year month day hour minute sec nsec offset : Int) : GoTime :=
  let (sec, nsec) := goNorm sec nsec 1000000000
  let (minute, sec) := goNorm minute sec 60
  let (hour, minute) := goNorm hour minute 60
  let (day, hour) := goNorm day hour 24
  let m0 := month - 1
  let (year, m0) := goNorm year m0 12
  let month := m0 + 1
  let d := daysSinceEpoch year + daysBefore (month - 1) +
    (if isLeap year ∧ month ≥ 3 then 1 else 0) + (day - 1)
  let abs := d * 86400 + hour * 3600 + minute * 60 + sec
  { absSec := abs - offset, nsec := nsec, offset := offset }

/-- Go `time.absDate(abs, full=true)`: year, month, day from absolute
local seconds. -/
def absToDate (abs : Int) : Int × Int × Int :=
  let d := abs.ediv 86400
  let n400 := d.tdiv 146097
  let d := d - 146097 * n400
  let n100' := d.tdiv 36524
  let n100 := n100' - n100'.tdiv 4
  let d := d - 36524 * n100
  let n4 := d.tdiv 1461
  let d := d - 1461 * n4
  let n1' := d.tdiv 365
  let n1 := n1' - n1'.tdiv 4
  let d := d - 365 * n1
  let year := 400 * n400 + 100 * n100 + 4 * n4 + n1 + absoluteZeroYear
  let yday := d
  let leap := isLeap year
  if leap ∧ yday = 59 then (year, 2, 29)
  else
    let day := if leap ∧ yday > 59 then yday - 1 else yday
    let m0 := day.tdiv 31
    let dEnd := daysBefore (m0 + 1)
    let (m0, dBegin) := if day ≥ dEnd then (m0 + 1, dEnd) else (m0, daysBefore m0)
    (year, m0 + 1, day - dBegin + 1)

/-- Local absolute seconds (what the component accessors read). -/
def GoTime.absLocal (t : GoTime) : Int := t.absSec + t.offset

def GoTime.year (t : GoTime) : Int := (absToDate t.absLocal).1

def GoTime.month (t : GoTime) : Int := (absToDate t.absLocal).2.1

def GoTime.day (t : GoTime) : Int := (absToDate t.absLocal).2.2

def GoTime.hour (t : GoTime) : Int := (t.absLocal.emod 86400).tdiv 3600

def GoTime.minute (t : GoTime) : Int := ((t.absLocal.emod 86400).tmod 3600).tdiv 60

def GoTime.second (t : GoTime) : Int := t.absLocal.emod 60

def GoTime.nanosecond (t : GoTime) : Int := t.nsec

def GoTime.zoneOffset (t : GoTime) : Int := t.offset

/-- Go `t.In(loc)`: same instant, re-expressed with the location's
offset at that instant. -/
def GoTime.inLoc (t : GoTime) (l : Location) : GoTime :=
  { t with offset := l.offAt t.absSec }

/-- The observable components of a parsed instant. -/
structure TsObs where
  year : Int
  month : Int
  day : Int
  hour : Int
  minute : Int
  second : Int
  nanosecond : Int
  zoneOffset : Int
deriving DecidableEq, Repr

/-- Read all observable components of an instant. -/
def tsObserve (t : GoTime) : TsObs :=
  { year := t.year, month := t.month, day := t.day, hour := t.hour,
    minute := t.minute, second := t.second, nanosecond := t.nanosecond,
    zoneOffset := t.zoneOffset }

/-!  `parseTs` (encode.go:185-273): the hand-built timestamp grammar
parser, translated statement by statement.  It is split along the
code's own comment structure: the mandatory date / optional time
prefix; then the three ordered optional sections (fractional seconds,
zone offset, BC marker), each returning its value together with the
updated `remainderIdx`; then the trailing-input check and the
`time.Date` call. -/

/-- Powers of ten as used in `1000000000 / int(math.Pow(10, fracOff))`.
`math.Pow(10, k)` is exact for `0 ≤ k ≤ 22`; for larger `k` the Go
float-to-int conversion differs from the exact power, but the quotient
`1000000000 / _` is `0` in both readings, so the exact integer power is
observationally equal to the Go expression at every reachable call. -/
def pow10i (k : Int) : Int := (10 : Int) ^ k.toNat

/-- The fractional-seconds section (encode.go:216-226). Returns
`(nanoSec, remainderIdx)`. -/
def parseFrac (str : GoBytes) (remainderIdx : Int) : Except Fault (Int × Int) := do
  if remainderIdx < (str.length : Int) then
    let c ← goSlice str remainderIdx (remainderIdx + 1)
    if c = gs "." then
      let fracStart := remainderIdx + 1
      let tail ← goSlice str fracStart (str.length : Int)
      let fracOff0 := goIndexAny tail (gs "-+ ")
      let fracOff := if fracOff0 < 0 then (str.length : Int) - fracStart else fracOff0
      let fracSec ← mustAtoi (← goSlice str fracStart (fracStart + fracOff))
      let nanoSec := fracSec * ((1000000000 : Int).tdiv (pow10i fracOff))
      pure (nanoSec, remainderIdx + fracOff + 1)
    else
      pure (0, remainderIdx)
  else
    pure (0, remainderIdx)

/-- The numeric zone-offset section (encode.go:227-249). Returns
`(tzOff, remainderIdx)`.  Note that the sign multiplies only the hour
component: `tzOff = (tzSign * tzHours * (60*60)) + (tzMin * 60) + tzSec`. -/
def parseTz (str : GoBytes) (remainderIdx : Int) : Except Fault (Int × Int) := do
  let tzStart := remainderIdx
  if tzStart < (str.length : Int) then
    let c ← goSlice str tzStart (tzStart + 1)
    if c = gs "-" ∨ c = gs "+" then
      let tzSign : Int := if c = gs "-" then -1 else 1
      let tzHours ← mustAtoi (← goSlice str (tzStart + 1) (tzStart + 3))
      let rem1 := remainderIdx + 3
      let minStep ←
        (if tzStart + 3 < (str.length : Int) then do
          let c2 ← goSlice str (tzStart + 3) (tzStart + 4)
          if c2 = gs ":" then do
            let m ← mustAtoi (← goSlice str (tzStart + 4) (tzStart + 6))
            pure (m, rem1 + 3)
          else pure ((0 : Int), rem1)
        else pure ((0 : Int), rem1))
      let secStep ←
        (if tzStart + 6 < (str.length : Int) then do
          let c3 ← goSlice str (tzStart + 6) (tzStart + 7)
          if c3 = gs ":" then do
            let sVal ← mustAtoi (← goSlice str (tzStart + 7) (tzStart + 9))
            pure (sVal, minStep.2 + 3)
          else pure ((0 : Int), minStep.2)
        else pure ((0 : Int), minStep.2))
      pure ((tzSign * tzHours * (60 * 60)) + (minStep.1 * 60) + secStep.1, secStep.2)
    else
      pure (0, remainderIdx)
  else
    pure (0, remainderIdx)

/-- The BC-era section (encode.go:250-253). Returns
`(bcSign, remainderIdx)`.  The three-byte slice `str[rem:rem+3]` is
taken whenever `rem < len str`, so one or two trailing bytes make it
panic. -/
def parseBC (str : GoBytes) (remainderIdx : Int) : Except Fault (Int × Int) := do
  if remainderIdx < (str.length : Int) then
    let c ← goSlice str remainderIdx (remainderIdx + 3)
    if c = gs " BC" then pure (-1, remainderIdx + 3)
    else pure (1, remainderIdx)
  else
    pure (1, remainderIdx)

/-- The parsed fields handed to `time.Date`. -/
structure TsFields where
  year : Int
  month : Int
  day : Int
  hour : Int
  minute : Int
  second : Int
  nanoSec : Int
  tzOff : Int
  bcSign : Int
deriving DecidableEq, Repr

/-- Everything `parseTs` does before its trailing-input check
(encode.go:185-253): mandatory date, optional fixed-width time, then
the three ordered optional sections.  Returns the fields and the final
`remainderIdx`. -/
def parseTsAux (str : GoBytes) : Except Fault (TsFields × Int) := do
  let monSep := goIndexRune str (byte '-')
  let year ← mustAtoi (← goSlice str 0 monSep)
  let daySep := monSep + 3
  let month ← mustAtoi (← goSlice str (monSep + 1) daySep)
  expect str (byte '-') daySep
  let timeSep := daySep + 3
  let day ← mustAtoi (← goSlice str (daySep + 1) timeSep)
  let hms ←
    (if (str.length : Int) > monSep + 6 then do
      expect str (byte ' ') timeSep
      let minSep := timeSep + 3
      expect str (byte ':') minSep
      let hour ← mustAtoi (← goSlice str (timeSep + 1) minSep)
      let secSep := minSep + 3
      expect str (byte ':') secSep
      let minute ← mustAtoi (← goSlice str (minSep + 1) secSep)
      let secEnd := secSep + 3
      let second ← mustAtoi (← goSlice str (secSep + 1) secEnd)
      pure (hour, minute, second)
    else pure ((0 : Int), (0 : Int), (0 : Int)))
  let remainderIdx := monSep + 15
  let fracStep ← parseFrac str remainderIdx
  let tzStep ← parseTz str fracStep.2
  let bcStep ← parseBC str tzStep.2
  pure ({ year := year, month := month, day := day,
          hour := hms.1, minute := hms.2.1, second := hms.2.2,
          nanoSec := fracStep.1, tzOff := tzStep.1, bcSign := bcStep.1 },
        bcStep.2)

/-- The `time.Date` call and zone reconciliation of `parseTs`
(encode.go:257-272). -/
def parseTsFinish (currentLocation : Option Location) (f : TsFields) : GoTime :=
  let t := timeDate (f.bcSign * f.year) f.month f.day f.hour f.minute f.second
    f.nanoSec f.tzOff
  match currentLocation with
  | none => t
  | some l =>
    let lt := t.inLoc l
    if lt.offset = f.tzOff then lt else t

/-- `parseTs(currentLocation, str)` (encode.go:185-273). -/
def parseTs (currentLocation : Option Location) (str : GoBytes) :
    Except Fault GoTime := do
  let (f, remainderIdx) ← parseTsAux str
  if remainderIdx < (str.length : Int) then
    let tail ← goSlice str remainderIdx (str.length : Int)
    .error (.errorf ("expected end of input, got " ++ bytesToStr tail))
  else
    .ok (parseTsFinish currentLocation f)

/-!  `encodeBytea` / `parseBytea` (encode.go:277-341): the two textual
representations of binary blobs. -/

/-- Lowercase hex digit (`fmt` verb `%x`). -/
def hexDigit (n : Nat) : GoByte := if n < 10 then bOf (48 + n) else bOf (87 + n)

/-- The two hex digits of one byte under `%x`. -/
def hexChars (b : GoByte) : GoBytes := [hexDigit (b.val / 16), hexDigit (b.val % 16)]

/-- The ASCII digit character for `n` (used for the octal digits of the
legacy bytea encoding and for building decimal test inputs). -/
def ascDigit (n : Nat) : GoByte := bOf (48 + n)

/-- One byte of the legacy "escape" encoding (encode.go:329-337):
backslash doubles; bytes outside `0x20..0x7e` become `\` plus exactly
three zero-padded octal digits (`fmt` verb `%03o`; every byte is below
`0o400`, so exactly three digits); anything else is copied verbatim. -/
def escByte (b : GoByte) : GoBytes :=
  if b = byte '\\' then [byte '\\', byte '\\']
  else if b.val < 0x20 ∨ b.val > 0x7e then
    [byte '\\', ascDigit (b.val / 64), ascDigit ((b.val / 8) % 8), ascDigit (b.val % 8)]
  else [b]

/-- `encodeBytea(serverVersion, v)` (encode.go:323-341). -/
def encodeBytea (serverVersion : Int) (v : GoBytes) : GoBytes :=
  if serverVersion ≥ 90000 then
    gs "\\x" ++ (v.map hexChars).flatten
  else
    (v.map escByte).flatten

/-- `encoding/hex.fromHexChar`. -/
def fromHexChar (c : GoByte) : Option Nat :=
  if 48 ≤ c.val ∧ c.val ≤ 57 then some (c.val - 48)
  else if 97 ≤ c.val ∧ c.val ≤ 102 then some (c.val - 97 + 10)
  else if 65 ≤ c.val ∧ c.val ≤ 70 then some (c.val - 65 + 10)
  else none

/-- The pairwise loop of `encoding/hex.Decode` (even-length input). -/
def hexPairs : GoBytes → Except Fault GoBytes
  | [] => .ok []
  | [_] => .error (.errorf "encoding/hex: odd length hex string")
  | a :: b :: rest =>
    match fromHexChar a, fromHexChar b with
    | some ha, some hb => (fun r => bOf (ha * 16 + hb) :: r) <$> hexPairs rest
    | _, _ => .error (.errorf "encoding/hex: invalid byte")

/-- `encoding/hex.Decode`: odd-length inputs are rejected, otherwise
decode pairwise, rejecting any non-hex digit. -/
def hexDecode (s : GoBytes) : Except Fault GoBytes :=
  if s.length % 2 = 1 then .error (.errorf "encoding/hex: odd length hex string")
  else hexPairs s

/-- `strconv.ParseInt(string(s[1:4]), 8, 9)` on exactly three bytes:
optional sign, octal digits, 9-bit signed range check. -/
def goParseIntOct3 (o1 o2 o3 : GoByte) : Option Int :=
  let isOct : GoByte → Bool := fun b => 48 ≤ b.val ∧ b.val ≤ 55
  let digits :=
    if o1 = byte '-' ∨ o1 = byte '+' then [o2, o3] else [o1, o2, o3]
  if digits.all isOct then
    let n : Nat := digits.foldl (fun acc b => acc * 8 + (b.val - 48)) 0
    let neg := o1 = byte '-'
    let v : Int := if neg then -(n : Int) else (n : Int)
    if v < -(2 ^ 8) ∨ v > 2 ^ 8 - 1 then none else some v
  else none

/-- The legacy "escape" decoding loop of `parseBytea`
(encode.go:287-317).  The source copies maximal backslash-free runs
with `bytes.IndexByte`; byte-at-a-time copying of those runs is the
same function. -/
def parseByteaEscape : GoBytes → Except Fault GoBytes
  | [] => .ok []
  | c :: s =>
    if c = byte '\\' then
      match s with
      | c2 :: s2 =>
        if c2 = byte '\\' then
          (fun r => byte '\\' :: r) <$> parseByteaEscape s2
        else
          match s2 with
          | o2 :: o3 :: s3 =>
            match goParseIntOct3 c2 o2 o3 with
            | some r => (fun rest => bOf (r.emod 256).toNat :: rest) <$> parseByteaEscape s3
            | none => .error (.errorf "could not parse bytea value")
          | _ => .error (.errorf "invalid bytea sequence")
      | [] => .error (.errorf "invalid bytea sequence")
    else
      (fun r => c :: r) <$> parseByteaEscape s

/-- `parseBytea(s)` (encode.go:277-321): hex mode when the input starts
with the two-byte marker `\x`, legacy escape mode otherwise. -/
def parseBytea (s : GoBytes) : Except Fault GoBytes :=
  if s.length ≥ 2 ∧ s.take 2 = gs "\\x" then
    hexDecode (s.drop 2)
  else
    parseByteaEscape s

deriving instance DecidableEq for Except

/-!  Type identifiers (`github.com/lib/pq/oid`), the connection
context, and the injected standard-library capabilities. -/

def T_bool : Nat := 16
def T_bytea : Nat := 17
def T_int8 : Nat := 20
def T_int2 : Nat := 21
def T_int4 : Nat := 23
def T_float4 : Nat := 700
def T_float8 : Nat := 701
def T_date : Nat := 1082
def T_time : Nat := 1083
def T_timestamp : Nat := 1114
def T_timestamptz : Nat := 1184
def T_timetz : Nat := 1266

/-- `parameterStatus`: the read-only per-connection snapshot. -/
structure ParameterStatus where
  serverVersion : Int
  currentLocation : Option Location

/-- Standard-library functions used by `encode.go` whose internals no
claim depends on, supplied as pure injected capabilities (the
specification's design notes prescribe exactly this for external
dependencies): `time.Parse` (layout, value), `strconv.ParseFloat` (bit
size, text, to IEEE bits), the fixed- and shortest-form float
formatters of `fmt`/`strconv`, and `time.Format(RFC3339Nano)`. -/
structure StdDeps where
  timeParse : GoBytes → GoBytes → Except String GoTime
  parseFloatBits : Nat → GoBytes → Option Nat
  formatFloatFixed : Nat → Nat → GoBytes
  formatFloatShortest : Nat → Nat → GoBytes
  formatRFC3339Nano : GoTime → GoBytes

/-- A concrete instantiation of the injected capabilities, for
evaluating the model at specific inputs. -/
def noDeps : StdDeps where
  timeParse := fun _ _ => .error "parsing time"
  parseFloatBits := fun _ _ => none
  formatFloatFixed := fun _ _ => []
  formatFloatShortest := fun _ _ => []
  formatRFC3339Nano := fun _ => []

/-- A concrete connection context, for evaluating the model. -/
def psDefault : ParameterStatus where
  serverVersion := 0
  currentLocation := none

/-- The closed variant of native values handled by `encode.go`'s
dispatch switches.  Float payloads are raw IEEE bit patterns,
uninterpreted by the codec.  (`interface{}` values of any other
dynamic type hit the `default: errorf` branch of the source switches
and are outside the modelled variant.) -/
inductive Value where
  | int64V (i : Int)
  | float32V (bits : Nat)
  | float64V (bits : Nat)
  | byteaV (b : GoBytes)
  | strV (s : GoBytes)
  | boolV (b : Bool)
  | timeV (t : GoTime)
  | nullV
deriving DecidableEq

/-!  `encode` (encode.go:15-44): single-value literal encoding. -/

/-- `encode(parameterStatus, x, pgtypOid)` (encode.go:15-44).  The
`string` case with a bytea target is `fmt.Sprintf("\\x%x", v)`: the
hex marker plus the lowercase hex of the string's raw bytes, with no
look at the capability version.  A `nil`/unknown value hits the
`default` branch's `errorf`. -/
def encode (deps : StdDeps) (ps : ParameterStatus) (x : Value) (pgtypOid : Nat) :
    Except Fault GoBytes :=
  match x with
  | .int64V v => .ok (gs (toString v))
  | .float32V bits => .ok (deps.formatFloatFixed 9 bits)
  | .float64V bits => .ok (deps.formatFloatFixed 17 bits)
  | .byteaV v =>
    if pgtypOid = T_bytea then .ok (encodeBytea ps.serverVersion v) else .ok v
  | .strV v =>
    if pgtypOid = T_bytea then .ok (gs "\\x" ++ (v.map hexChars).flatten) else .ok v
  | .boolV b => .ok (gs (if b then "true" else "false"))
  | .timeV t => .ok (deps.formatRFC3339Nano t)
  | .nullV => .error (.errorf "encode: unknown type")

/-!  `appendEscapedText` / `appendEncodedText` (encode.go:83-144):
bulk-load (COPY) text building. -/

/-- The escape set of the COPY text format. -/
def needsEsc (c : GoByte) : Bool :=
  c = byte '\\' ∨ c = bOf 10 ∨ c = bOf 13 ∨ c = bOf 9

/-- One byte of the escaping loop's switch (encode.go:130-141). -/
def escChar (c : GoByte) : GoBytes :=
  if c = byte '\\' then [byte '\\', byte '\\']
  else if c = bOf 10 then [byte '\\', byte 'n']
  else if c = bOf 13 then [byte '\\', byte 'r']
  else if c = bOf 9 then [byte '\\', byte 't']
  else [c]

/-- The escaping loop (encode.go:128-142), appending to `result`. -/
def escLoop (result : GoBytes) : GoBytes → GoBytes
  | [] => result
  | c :: rest => escLoop (result ++ escChar c) rest

/-- `appendEscapedText(buf, text)` (encode.go:108-144): find the first
byte needing escape; if none, append the text verbatim; otherwise
append the clean prefix and run the escaping loop over the rest. -/
def appendEscapedText (buf : GoBytes) (text : GoBytes) : GoBytes :=
  match text.findIdx? needsEsc with
  | none => buf ++ text
  | some startPos => escLoop (buf ++ text.take startPos) (text.drop startPos)

/-- `appendEncodedText(parameterStatus, buf, x)` (encode.go:83-106). -/
def appendEncodedText (deps : StdDeps) (ps : ParameterStatus) (buf : GoBytes)
    (x : Value) : GoBytes :=
  match x with
  | .int64V v => buf ++ gs (toString v)
  | .float32V bits => buf ++ deps.formatFloatShortest 32 bits
  | .float64V bits => buf ++ deps.formatFloatShortest 64 bits
  | .byteaV v => buf ++ encodeBytea ps.serverVersion v
  | .strV s => appendEscapedText buf s
  | .boolV b => buf ++ gs (if b then "true" else "false")
  | .timeV t => buf ++ deps.formatRFC3339Nano t
  | .nullV => buf ++ gs "\\N"

/-!  `mustParse` and `decode` (encode.go:46-79, 146-165). -/

/-- `mustParse(f, typ, s)` (encode.go:146-165): two unguarded byte
reads — position `len-2` always, and position `len-3` (of the possibly
extended string) when the type identifier is a zoned one — then
`time.Parse`, whose failure is reported through `errorf`. -/
def mustParse (deps : StdDeps) (f : GoBytes) (typ : Nat) (s : GoBytes) :
    Except Fault GoTime := do
  let str := s
  let c ← goIdx str ((str.length : Int) - 2)
  let str := if c = byte '.' then str ++ gs "0" else str
  let halfOff ←
    (if typ = T_timestamptz ∨ typ = T_timetz then do
      let c2 ← goIdx str ((str.length : Int) - 3)
      pure (decide (c2 = byte ':'))
    else pure false)
  let f := if halfOff then f ++ gs ":00" else f
  match deps.timeParse f str with
  | .ok t => .ok t
  | .error e => .error (.errorf ("decode: " ++ e))

/-- `decode(parameterStatus, s, typ)` (encode.go:46-79).  The boolean
branch is the unguarded `s[0] == 't'`; unrecognized identifiers return
the raw bytes unchanged (`.byteaV s`, the Go `[]byte` result). -/
def decode (deps : StdDeps) (ps : ParameterStatus) (s : GoBytes) (typ : Nat) :
    Except Fault Value :=
  if typ = T_bytea then (Value.byteaV ·) <$> parseBytea s
  else if typ = T_timestamptz then (Value.timeV ·) <$> parseTs ps.currentLocation s
  else if typ = T_timestamp ∨ typ = T_date then (Value.timeV ·) <$> parseTs none s
  else if typ = T_time then (Value.timeV ·) <$> mustParse deps (gs "15:04:05") typ s
  else if typ = T_timetz then (Value.timeV ·) <$> mustParse deps (gs "15:04:05-07") typ s
  else if typ = T_bool then do
    let c ← goIdx s 0
    .ok (.boolV (decide (c = byte 't')))
  else if typ = T_int8 ∨ typ = T_int2 ∨ typ = T_int4 then
    match goAtoi s with
    | some i => .ok (.int64V i)
    | none => .error (.errorf "strconv.ParseInt: invalid syntax")
  else if typ = T_float4 ∨ typ = T_float8 then
    let bits := if typ = T_float4 then 32 else 64
    match deps.parseFloatBits bits s with
    | some w => .ok (.float64V w)
    | none => .error (.errorf "strconv.ParseFloat: invalid syntax")
  else .ok (.byteaV s)

/-!  `NullTime` (encode.go:343-363). -/

/-- The domain of `database/sql/driver` values crossing the generic
scan/value boundary. -/
inductive DriverValue where
  | nilV
  | int64V (i : Int)
  | float64V (bits : Nat)
  | boolV (b : Bool)
  | bytesV (b : GoBytes)
  | stringV (s : GoBytes)
  | timeV (t : GoTime)
deriving DecidableEq

/-- The Go zero `time.Time` (January 1, year 1, 00:00:00 UTC). -/
def zeroTime : GoTime := timeDate 1 1 1 0 0 0 0 0

/-- The two-result type assertion `value.(time.Time)`: the stored
instant and `true` on an instant, the zero instant and `false` on
every other kind; it never panics. -/
def typeAssertTime : DriverValue → GoTime × Bool
  | .timeV t => (t, true)
  | _ => (zeroTime, false)

/-- `NullTime` (encode.go:346-349). -/
structure NullTime where
  time : GoTime
  valid : Bool
deriving DecidableEq

/-- `NullTime.Scan(value)` (encode.go:352-355): store the two-result
type assertion; always return a `nil` error (modelled as `none`). -/
def NullTime.Scan (value : DriverValue) : NullTime × Option String :=
  let a := typeAssertTime value
  ({ time := a.1, valid := a.2 }, none)

/-- `NullTime.Value()` (encode.go:358-363): the null marker when
invalid, the stored instant when valid; never an error. -/
def NullTime.Value (nt : NullTime) : DriverValue × Option String :=
  if !nt.valid then (.nilV, none) else (.timeV nt.time, none)

/-!  Helper lemmas shared by the claim theorems below. -/

@[simp] theorem exbind_ok {ε α β : Type} (a : α) (f : α → Except ε β) :
    (Except.ok a : Except ε α) >>= f = f a := rfl

@[simp] theorem exbind_error {ε α β : Type} (e : ε) (f : α → Except ε β) :
    (Except.error e : Except ε α) >>= f = Except.error e := rfl

@[simp] theorem expure_eq_ok {ε α : Type} (a : α) :
    (pure a : Except ε α) = Except.ok a := rfl

theorem goIdx_pos (s : GoBytes) (i : Int) (h1 : 0 ≤ i) (h2 : i < (s.length : Int)) :
    goIdx s i = .ok (s.get ⟨i.toNat, by omega⟩) := by
  rw [goIdx, dif_pos ⟨h1, h2⟩]

theorem goIdx_neg (s : GoBytes) (i : Int) (h : ¬(0 ≤ i ∧ i < (s.length : Int))) :
    goIdx s i = .error (.panicked "index out of range") := by
  rw [goIdx, dif_neg h]

theorem isPanic_tpMatch (deps : StdDeps) (ff ss : GoBytes) :
    isPanic ((match deps.timeParse ff ss with
      | .ok t => Except.ok t
      | .error e => Except.error (Fault.errorf ("decode: " ++ e))) : Except Fault GoTime)
      = false := by
  cases deps.timeParse ff ss <;> rfl

theorem hex_fromChar (n : Nat) (h : n < 16) : fromHexChar (hexDigit n) = some n := by
  revert n h
  decide

theorem oct_inverse (b : GoByte) :
    goParseIntOct3 (ascDigit (b.val / 64)) (ascDigit ((b.val / 8) % 8)) (ascDigit (b.val % 8)) =
      some (b.val : Int) := by
  revert b
  decide

theorem bof_emod (b : GoByte) : bOf (((b.val : Nat) : Int).emod 256).toNat = b := by
  revert b
  decide

theorem oct_d1_ne_bslash (b : GoByte) : ascDigit (b.val / 64) ≠ byte '\\' := by
  revert b
  decide

theorem oct_d1_ne_x (b : GoByte) : ascDigit (b.val / 64) ≠ byte 'x' := by
  revert b
  decide

theorem hexChars_len_even (v : GoBytes) : ((v.map hexChars).flatten).length % 2 = 0 := by
  induction v with
  | nil => rfl
  | cons b rest ih =>
    simp only [List.map_cons, List.flatten_cons, List.length_append, hexChars,
      List.length_cons, List.length_nil]
    omega

theorem hexPairs_round (v : GoBytes) : hexPairs ((v.map hexChars).flatten) = .ok v := by
  induction v with
  | nil => rfl
  | cons b rest ih =>
    have h1 : b.val / 16 < 16 := by omega
    have h2 : b.val % 16 < 16 := by omega
    simp only [List.map_cons, List.flatten_cons, hexChars, List.cons_append, List.nil_append]
    rw [hexPairs, hex_fromChar _ h1, hex_fromChar _ h2, ih]
    have : bOf (b.val / 16 * 16 + b.val % 16) = b := by
      have : b.val / 16 * 16 + b.val % 16 = b.val := by omega
      rw [this]
      exact Fin.ext (Nat.mod_eq_of_lt b.isLt)
    simp [this]

theorem escByte_step (b : GoByte) (t : GoBytes) :
    parseByteaEscape (escByte b ++ t) = (fun r => b :: r) <$> parseByteaEscape t := by
  rw [escByte]
  by_cases h1 : b = byte '\\'
  · rw [if_pos h1, List.cons_append, List.cons_append, List.nil_append,
      parseByteaEscape.eq_def]
    simp [h1]
  · rw [if_neg h1]
    by_cases h2 : b.val < 0x20 ∨ b.val > 0x7e
    · rw [if_pos h2]
      simp only [List.cons_append, List.nil_append]
      rw [parseByteaEscape.eq_def]
      simp only [if_pos rfl, if_neg (oct_d1_ne_bslash b), oct_inverse b, bof_emod b,
        if_true]
    · rw [if_neg h2, List.cons_append, List.nil_append, parseByteaEscape.eq_def]
      simp [h1]

theorem escape_round (v : GoBytes) : parseByteaEscape ((v.map escByte).flatten) = .ok v := by
  induction v with
  | nil => rfl
  | cons b rest ih =>
    rw [List.map_cons, List.flatten_cons, escByte_step, ih]
    rfl

theorem escape_no_marker (v : GoBytes) :
    ¬(((v.map escByte).flatten).length ≥ 2 ∧ ((v.map escByte).flatten).take 2 = gs "\\x") := by
  rintro ⟨hlen, htake⟩
  cases v with
  | nil => simp at hlen
  | cons b rest =>
    rw [List.map_cons, List.flatten_cons, escByte] at htake
    by_cases h1 : b = byte '\\'
    · rw [if_pos h1] at htake
      simp only [List.cons_append, List.nil_append, List.take_succ_cons, List.take_zero] at htake
      exact absurd htake (by decide)
    · rw [if_neg h1] at htake
      by_cases h2 : b.val < 0x20 ∨ b.val > 0x7e
      · rw [if_pos h2] at htake
        simp only [List.cons_append, List.nil_append, List.take_succ_cons, List.take_zero] at htake
        have : ascDigit (b.val / 64) = byte 'x' := by
          simpa [gs, byte, bOf] using htake
        exact absurd this (oct_d1_ne_x b)
      · rw [if_neg h2] at htake
        rw [List.cons_append, List.nil_append, List.take_succ_cons] at htake
        have : b = byte '\\' := by
          have hgs : gs "\\x" = byte '\\' :: [byte 'x'] := rfl
          rw [hgs] at htake
          exact (List.cons.injEq _ _ _ _ ▸ htake).1
        exact h1 this

theorem escLoop_extends (l : GoBytes) :
    ∀ a b : GoBytes, escLoop (a ++ b) l = a ++ escLoop b l := by
  induction l with
  | nil => intro a b; rfl
  | cons c rest ih =>
    intro a b
    rw [escLoop, List.append_assoc, ih, escLoop]

/-!  Claim theorems. -/

/-- C1: evaluating `parseTs` at the claim's input
`"2024-03-05 13:04:05.123456-07:30"`.  The date, time and nanosecond
components come out as the claim states (2024-03-05 13:04:05,
123456000 ns), but the zone offset is −23400 seconds, not the −27000
the claim (and timezone semantics) require: encode.go:248 computes
`tzOff = (tzSign * tzHours * (60*60)) + (tzMin * 60) + tzSec`, so the
sign is applied to the hour component only, not to the combined
value. -/
theorem c1_parseTs_tz_sign_hours_only :
    (parseTs none (gs "2024-03-05 13:04:05.123456-07:30")).map tsObserve =
      .ok ⟨2024, 3, 5, 13, 4, 5, 123456000, -23400⟩ := by
  decide

/-- C2: for every byte sequence and every capability version — hex
mode (`v ≥ 90000`) and legacy escape mode (`v < 90000`) alike —
decoding the encoding returns the original bytes:
`parseBytea (encodeBytea v b) = ok b`. -/
theorem c2_bytea_decode_encode_roundtrip (v : Int) (b : GoBytes) :
    parseBytea (encodeBytea v b) = .ok b := by
  rw [encodeBytea]
  by_cases hv : v ≥ 90000
  · rw [if_pos hv, parseBytea]
    have hgs : gs "\\x" = byte '\\' :: byte 'x' :: [] := rfl
    rw [if_pos ?side]
    case side =>
      constructor
      · rw [hgs]; simp
      · rw [hgs, List.cons_append, List.cons_append, List.nil_append,
          List.take_succ_cons, List.take_succ_cons, List.take_zero]
    · have hdrop : (gs "\\x" ++ (b.map hexChars).flatten).drop 2 = (b.map hexChars).flatten := by
        rw [hgs]; rfl
      rw [hdrop, hexDecode, if_neg (by rw [hexChars_len_even]; decide), hexPairs_round]
  · rw [if_neg hv, parseBytea, if_neg (escape_no_marker b), escape_round]

/-- C3 counterexample: the empty string does not fail through the
decode-error mechanism; the `-1` returned by the separator search
makes `str[:monSep]` an out-of-bounds slice, a runtime panic. -/
theorem c3_counterexample_empty_input_panics :
    parseTs none (gs "") = .error (.panicked "slice bounds out of range") := by
  decide

/-- C3 (amended): an input containing no `-` separator always fails
with an out-of-bounds slice access — a runtime panic outside the
decode-error mechanism — because `strings.IndexRune` returns `-1` and
`str[:-1]` panics. -/
theorem c3_amended_no_dash_panics (loc : Option Location) (str : GoBytes)
    (h : ∀ b ∈ str, b ≠ byte '-') :
    parseTs loc str = .error (.panicked "slice bounds out of range") := by
  have hfind : str.findIdx? (fun x => x == byte '-') = none := by
    rw [List.findIdx?_eq_none_iff]
    intro x hx
    simp [h x hx]
  have hidx : goIndexRune str (byte '-') = -1 := by
    simp [goIndexRune, hfind]
  have hslice : goSlice str 0 (-1) = .error (.panicked "slice bounds out of range") := by
    simp [goSlice]
  simp [parseTs, parseTsAux, hidx, hslice]

/-- Witness for C3 (amended) at the concrete dash-free input `"abc"`. -/
theorem c3_amended_no_dash_panics_witness :
    parseTs none (gs "abc") = .error (.panicked "slice bounds out of range") :=
  c3_amended_no_dash_panics none (gs "abc") (by decide)

/-- C4 counterexample: decoding empty input with the boolean type
identifier is not "treated as false"; the unguarded `s[0]` access
panics. -/
theorem c4_counterexample_empty_bool_panics :
    decode noDeps psDefault [] T_bool = .error (.panicked "index out of range") := by
  decide

/-- C4 (amended): with the boolean type identifier, non-empty input
decodes without failing to `true` exactly when the first byte is
`'t'`; empty input causes an out-of-range index panic instead of being
treated as false. -/
theorem c4_amended_bool_first_byte (deps : StdDeps) (ps : ParameterStatus) :
    (∀ c rest, decode deps ps (c :: rest) T_bool = .ok (.boolV (decide (c = byte 't')))) ∧
    decode deps ps [] T_bool = .error (.panicked "index out of range") := by
  constructor
  · intro c rest
    rw [decode]
    simp [T_bool, T_bytea, T_timestamptz, T_timestamp, T_date, T_time, T_timetz, goIdx_pos]
  · rw [decode]
    simp [T_bool, T_bytea, T_timestamptz, T_timestamp, T_date, T_time, T_timetz]
    rfl

/-- C5: no partial success.  If `parseTs` returns an instant, the
final remainder index of the section-by-section scan
(`parseTsAux`) has reached (at least) the end of the input; and
whenever the scan leaves unconsumed characters, `parseTs` fails (with
the "expected end of input" decode error, or — for one or two trailing
bytes — through the BC-section's slice panic, which is inside
`parseTsAux` itself). -/
theorem c5_no_partial_parse (loc : Option Location) (str : GoBytes) :
    (∀ t, parseTs loc str = .ok t →
      ∃ f rem, parseTsAux str = .ok (f, rem) ∧ (str.length : Int) ≤ rem) ∧
    (∀ f rem, parseTsAux str = .ok (f, rem) → rem < (str.length : Int) →
      ∃ e, parseTs loc str = .error e) := by
  constructor
  · intro t ht
    match haux : parseTsAux str with
    | .error e => rw [parseTs, haux] at ht; simp at ht
    | .ok (f, rem) =>
      refine ⟨f, rem, rfl, ?_⟩
      rw [parseTs, haux] at ht
      simp only [exbind_ok] at ht
      by_contra hlt
      push_neg at hlt
      rw [if_pos hlt] at ht
      cases hsl : goSlice str rem (str.length : Int) with
      | ok tail => rw [hsl] at ht; simp at ht
      | error e => rw [hsl] at ht; simp at ht
  · intro f rem haux hlt
    rw [parseTs, haux]
    simp only [exbind_ok]
    rw [if_pos hlt]
    cases hsl : goSlice str rem (str.length : Int) with
    | ok tail => exact ⟨_, rfl⟩
    | error e => exact ⟨_, rfl⟩

/-- Witness for C5 at `"2024-03-05 13:04:05xyz"`: the scan stops at
index 19 of 22, and `parseTs` fails. -/
theorem c5_no_partial_parse_witness :
    ∃ e, parseTs none (gs "2024-03-05 13:04:05xyz") = .error e :=
  (c5_no_partial_parse none (gs "2024-03-05 13:04:05xyz")).2
    ⟨2024, 3, 5, 13, 4, 5, 0, 0, 1⟩ 19 (by decide) (by decide)

/-- C6: the month field is read as a fixed two-digit number with no
range validation — every two-digit month makes `parseTs` succeed on an
otherwise-valid date — and the out-of-range input `"2024-13-05"` is
accepted and normalized by rollover to January 5 of the following
year. -/
theorem c6_month_unvalidated_rollover :
    (∀ m : Nat, m < 100 →
      isOk (parseTs none (gs "2024-" ++ [ascDigit (m / 10), ascDigit (m % 10)] ++ gs "-05"))
        = true) ∧
    (parseTs none (gs "2024-13-05")).map tsObserve = .ok ⟨2025, 1, 5, 0, 0, 0, 0, 0⟩ := by
  constructor
  · decide
  · decide

/-- Witness for C6 at month 13. -/
theorem c6_month_unvalidated_rollover_witness :
    isOk (parseTs none (gs "2024-" ++ [ascDigit (13 / 10), ascDigit (13 % 10)] ++ gs "-05"))
      = true :=
  c6_month_unvalidated_rollover.1 13 (by decide)

/-- C7: encoding a string value with the binary-blob target type
yields the hex marker followed by the lowercase hex of the string's
bytes, for every capability version (the result does not depend on the
connection context or any injected dependency), and a string with any
other target type passes through unchanged. -/
theorem c7_string_bytea_hex_unconditional (deps dep2 : StdDeps)
    (ps ps2 : ParameterStatus) (s : GoBytes) :
    encode deps ps (.strV s) T_bytea = .ok (gs "\\x" ++ (s.map hexChars).flatten) ∧
    (∀ typ, typ ≠ T_bytea → encode deps ps (.strV s) typ = .ok s) ∧
    (∀ typ, encode deps ps (.strV s) typ = encode dep2 ps2 (.strV s) typ) := by
  refine ⟨?_, ?_, ?_⟩
  · rw [encode, if_pos rfl]
  · intro typ h
    rw [encode, if_neg h]
  · intro typ
    rfl

/-- Witness for C7: the pass-through conjunct at the text type
identifier 25. -/
theorem c7_string_bytea_hex_unconditional_witness :
    encode noDeps psDefault (.strV (gs "ab")) 25 = .ok (gs "ab") :=
  (c7_string_bytea_hex_unconditional noDeps noDeps psDefault psDefault (gs "ab")).2.1
    25 (by decide)

/-- C8: `NullTime.Scan` never returns an error; it marks the result
valid exactly when the incoming value is an instant (storing it), and
marks it invalid for every other kind; `NullTime.Value` produces the
null marker when invalid and the stored instant when valid. -/
theorem c8_nulltime_scan_value :
    (∀ v : DriverValue,
      (NullTime.Scan v).2 = none ∧
      ((NullTime.Scan v).1.valid = true ↔ ∃ t, v = .timeV t) ∧
      (∀ t, v = .timeV t → (NullTime.Scan v).1 = ⟨t, true⟩)) ∧
    (∀ nt : NullTime, nt.valid = false → nt.Value = (.nilV, none)) ∧
    (∀ nt : NullTime, nt.valid = true → nt.Value = (.timeV nt.time, none)) := by
  refine ⟨?_, ?_, ?_⟩
  · intro v
    refine ⟨rfl, ?_, ?_⟩
    · cases v <;> simp [NullTime.Scan, typeAssertTime]
    · rintro t rfl
      rfl
  · intro nt h
    simp [NullTime.Value, h]
  · intro nt h
    simp [NullTime.Value, h]

/-- Witness for C8: an instant scans to a valid `NullTime`, and an
invalid `NullTime` produces the null marker. -/
theorem c8_nulltime_scan_value_witness :
    (NullTime.Scan (.timeV zeroTime)).1.valid = true ∧
    NullTime.Value ⟨zeroTime, false⟩ = (.nilV, none) :=
  ⟨(c8_nulltime_scan_value.1 (.timeV zeroTime)).2.1.mpr ⟨zeroTime, rfl⟩,
   c8_nulltime_scan_value.2.1 ⟨zeroTime, false⟩ rfl⟩

/-- C9 counterexample: the two-byte input `"ab"` with the unzoned time
identifier stays inside the decode-fault mechanism (its only unguarded
read is position `len-2 = 0`), producing an `errorf` decode error from
the failed parse — it does not fall outside that mechanism. -/
theorem c9_counterexample_short_unzoned_in_mechanism :
    mustParse noDeps (gs "15:04:05") T_time (gs "ab") =
      .error (.errorf "decode: parsing time") := by
  decide

/-- C9 (amended): `decode` routes the time / time-with-zone
identifiers to `mustParse`, which unconditionally reads position
`len-2` and, for zoned identifiers, position `len-3` of the possibly
extended string.  Every input of at least 3 bytes keeps all these
reads in bounds (no panic); inputs of fewer than 2 bytes always panic;
a 2-byte input panics exactly when the identifier is a zoned one and
the first byte is not `'.'`, and otherwise stays within the
decode-fault mechanism: for an unzoned identifier, and also for a
zoned identifier when the first byte is `'.'` (the workaround appends
a digit, putting the `len-3` read in bounds), there is no panic. -/
theorem c9_amended_mustParse_bounds (deps : StdDeps) (f : GoBytes) (typ : Nat)
    (s : GoBytes) :
    (∀ ps, decode deps ps s T_time = Value.timeV <$> mustParse deps (gs "15:04:05") T_time s) ∧
    (∀ ps, decode deps ps s T_timetz =
      Value.timeV <$> mustParse deps (gs "15:04:05-07") T_timetz s) ∧
    (3 ≤ s.length → isPanic (mustParse deps f typ s) = false) ∧
    (s.length < 2 → isPanic (mustParse deps f typ s) = true) ∧
    (∀ c1 c2, s = [c1, c2] → typ ≠ T_timestamptz → typ ≠ T_timetz →
      isPanic (mustParse deps f typ s) = false) ∧
    (∀ c1 c2, s = [c1, c2] → (typ = T_timestamptz ∨ typ = T_timetz) →
      c1 ≠ byte '.' → isPanic (mustParse deps f typ s) = true) ∧
    (∀ c2, s = [byte '.', c2] → (typ = T_timestamptz ∨ typ = T_timetz) →
      isPanic (mustParse deps f typ s) = false) := by
  refine ⟨fun ps => rfl, fun ps => rfl, ?_, ?_, ?_, ?_, ?_⟩
  · intro h3
    rw [mustParse]
    rw [goIdx_pos s ((s.length : Int) - 2) (by omega) (by omega)]
    simp only [exbind_ok]
    by_cases hdot : s.get ⟨((s.length : Int) - 2).toNat, by omega⟩ = byte '.'
    · rw [if_pos hdot]
      by_cases hz : typ = T_timestamptz ∨ typ = T_timetz
      · rw [if_pos hz]
        rw [goIdx_pos (s ++ gs "0") (((s ++ gs "0").length : Int) - 3)
          (by simp [gs]; omega) (by simp [gs])]
        simp only [exbind_ok]
        exact isPanic_tpMatch deps _ _
      · rw [if_neg hz]
        simp only [expure_eq_ok, exbind_ok]
        exact isPanic_tpMatch deps _ _
    · rw [if_neg hdot]
      by_cases hz : typ = T_timestamptz ∨ typ = T_timetz
      · rw [if_pos hz]
        rw [goIdx_pos s ((s.length : Int) - 3) (by omega) (by omega)]
        simp only [exbind_ok]
        exact isPanic_tpMatch deps _ _
      · rw [if_neg hz]
        simp only [expure_eq_ok, exbind_ok]
        exact isPanic_tpMatch deps _ _
  · intro h2
    rw [mustParse]
    rw [goIdx_neg s ((s.length : Int) - 2) (by omega)]
    rfl
  · rintro c1 c2 rfl hz1 hz2
    rw [mustParse]
    rw [goIdx_pos _ _ (by simp) (by simp)]
    simp only [exbind_ok]
    rw [if_neg (by simp [hz1, hz2] : ¬(typ = T_timestamptz ∨ typ = T_timetz))]
    simp only [expure_eq_ok, exbind_ok]
    by_cases hdot : ([c1, c2] : GoBytes).get
        ⟨(((([c1, c2] : GoBytes).length : Int)) - 2).toNat, by simp⟩ = byte '.'
    · rw [if_pos hdot]
      exact isPanic_tpMatch deps _ _
    · rw [if_neg hdot]
      exact isPanic_tpMatch deps _ _
  · rintro c1 c2 rfl hz hdot
    rw [mustParse]
    rw [goIdx_pos _ _ (by simp) (by simp)]
    simp only [exbind_ok]
    have hg : ([c1, c2] : GoBytes).get
        ⟨(((([c1, c2] : GoBytes).length : Int)) - 2).toNat, by simp⟩ = c1 := by
      simp
    rw [hg, if_neg hdot, if_pos hz]
    rw [goIdx_neg _ _ (by simp)]
    rfl
  · rintro c2 rfl hz
    rw [mustParse]
    rw [goIdx_pos _ _ (by simp) (by simp)]
    simp only [exbind_ok]
    have hg : ([byte '.', c2] : GoBytes).get
        ⟨(((([byte '.', c2] : GoBytes).length : Int)) - 2).toNat, by simp⟩ = byte '.' := by
      simp
    rw [hg, if_pos rfl, if_pos hz]
    rw [goIdx_pos (([byte '.', c2] : GoBytes) ++ gs "0")
      (((([byte '.', c2] : GoBytes) ++ gs "0").length : Int) - 3)
      (by simp [gs]) (by simp [gs])]
    simp only [exbind_ok]
    exact isPanic_tpMatch deps _ _

/-- Witness for C9 (amended) at concrete inputs: a 3-byte input does
not panic; the empty input panics; the 2-byte input `"ab"` panics for
the zoned time identifier while the 2-byte input `".x"` does not. -/
theorem c9_amended_mustParse_bounds_witness :
    isPanic (mustParse noDeps (gs "15:04:05") T_time (gs "abc")) = false ∧
    isPanic (mustParse noDeps (gs "15:04:05") T_time (gs "")) = true ∧
    isPanic (mustParse noDeps (gs "15:04:05-07") T_timetz (gs "ab")) = true ∧
    isPanic (mustParse noDeps (gs "15:04:05-07") T_timetz (gs ".x")) = false :=
  ⟨(c9_amended_mustParse_bounds noDeps (gs "15:04:05") T_time (gs "abc")).2.2.1
      (by decide),
   (c9_amended_mustParse_bounds noDeps (gs "15:04:05") T_time (gs "")).2.2.2.1
      (by decide),
   (c9_amended_mustParse_bounds noDeps (gs "15:04:05-07") T_timetz (gs "ab")).2.2.2.2.2.1
      (byte 'a') (byte 'b') (by decide) (by decide) (by decide),
   (c9_amended_mustParse_bounds noDeps (gs "15:04:05-07") T_timetz (gs ".x")).2.2.2.2.2.2
      (byte 'x') (by decide) (by decide)⟩

/-- C10: the bulk-row encoders only append — for every connection
context, buffer and supported value, `appendEncodedText` returns the
caller's buffer followed by some suffix, and so does
`appendEscapedText` for every text. -/
theorem c10_append_encoders_extend_buffer :
    (∀ (deps : StdDeps) (ps : ParameterStatus) (buf : GoBytes) (x : Value),
      ∃ suf, appendEncodedText deps ps buf x = buf ++ suf) ∧
    (∀ (buf text : GoBytes), ∃ suf, appendEscapedText buf text = buf ++ suf) := by
  have hesc : ∀ (buf text : GoBytes), ∃ suf, appendEscapedText buf text = buf ++ suf := by
    intro buf text
    rw [appendEscapedText]
    cases h : text.findIdx? needsEsc with
    | none => exact ⟨text, rfl⟩
    | some startPos =>
      exact ⟨escLoop (text.take startPos) (text.drop startPos), escLoop_extends _ _ _⟩
  refine ⟨?_, hesc⟩
  intro deps ps buf x
  cases x with
  | strV s => exact hesc buf s
  | int64V v => exact ⟨_, rfl⟩
  | float32V b => exact ⟨_, rfl⟩
  | float64V b => exact ⟨_, rfl⟩
  | byteaV b => exact ⟨_, rfl⟩
  | boolV b => exact ⟨_, rfl⟩
  | timeV t => exact ⟨_, rfl⟩
  | nullV => exact ⟨_, rfl⟩
